import Mathlib

/-
Verification of the vector telemetry-pipeline core: the UDP socket source
(src/sources/socket/udp.rs) and the Splunk HEC metrics sink
(src/sinks/splunk_hec/metrics/sink.rs), shallowly embedded in Lean 4.

Machine datagrams, events and decode results are modelled with explicit
lists; the asynchronous receive/decode/send loop is modelled as a pure
function over the (finite) list of decode results produced from one
datagram, with the outcome of each channel send supplied by an oracle.
-/

/- ===== Shared event model ===== -/

/-- Association-list lookup keyed by decidable equality. -/
def lookupAssoc {κ β : Type} [DecidableEq κ] : List (κ × β) → κ → Option β
  | [], _ => none
  | (k, v) :: rest, key => if k = key then some v else lookupAssoc rest key

/-- Association-list update: replace the binding of `key`, or append one. -/
def updateAssoc {κ β : Type} [DecidableEq κ] : List (κ × β) → κ → β → List (κ × β)
  | [], key, v => [(key, v)]
  | (k, w) :: rest, key, v =>
      if k = key then (key, v) :: rest else (k, w) :: updateAssoc rest key v

/-- Association-list removal of the binding of `key`. -/
def eraseAssoc {κ β : Type} [DecidableEq κ] : List (κ × β) → κ → List (κ × β)
  | [], _ => []
  | (k, w) :: rest, key =>
      if k = key then eraseAssoc rest key else (k, w) :: eraseAssoc rest key

/-- Values stored in a log event's fields (string, integer, timestamp). -/
inductive Value where
  | str (s : String)
  | int (n : Int)
  | timestamp (t : Nat)
  deriving DecidableEq

/-- A log event: a finite map from field paths to values. -/
structure LogEvent where
  fields : List (String × Value)
  deriving DecidableEq

def LogEvent.getField (l : LogEvent) (path : String) : Option Value :=
  lookupAssoc l.fields path

def LogEvent.setField (l : LogEvent) (path : String) (v : Value) : LogEvent :=
  { fields := updateAssoc l.fields path v }

/-- Per-event metadata envelope; carries the opaque routing token used as
the Splunk HEC partition key (`EventMetadata::splunk_hec_token`). -/
structure EventMetadata where
  splunk_hec_token : Option String
  deriving DecidableEq

/-- `MetricKind` of vector-core (Absolute / Incremental). -/
inductive MetricKind where
  | absolute
  | incremental
  deriving DecidableEq

/-- Numeric payload of a metric sample.  The f64 payloads are carried
opaquely by the code under verification (moved, never computed with, no
rounding occurs), so any inhabited type with decidable equality is a
faithful model; integers are used. -/
abbrev F64 := Int

/-- `MetricValue` of vector-core.  Payloads of the kinds the verified code
never inspects are elided. -/
inductive MetricValue where
  | counter (value : F64)
  | gauge (value : F64)
  | set (values : List String)
  | distribution
  | aggregatedHistogram
  | aggregatedSummary
  | sketch
  deriving DecidableEq

/-- A metric event: series name and namespace, tags, kind, value, and the
event metadata envelope.  (`nspace` models the Rust field `namespace`,
which is a keyword in Lean.) -/
structure Metric where
  name : String
  nspace : Option String
  tags : List (String × String)
  kind : MetricKind
  value : MetricValue
  metadata : EventMetadata
  deriving DecidableEq

/-- `Metric::tag_value`: fetch a tag's value by key. -/
def Metric.tag_value (m : Metric) (key : String) : Option String :=
  lookupAssoc m.tags key

/-- `Event`: tagged union of log and metric events. -/
inductive Event where
  | log (l : LogEvent)
  | metric (m : Metric)
  deriving DecidableEq

/- ===== UDP source model (src/sources/socket/udp.rs) ===== -/

/-- A frame-decode error, exposing the decoder's `can_continue` signal. -/
structure DecodeError where
  can_continue : Bool
  deriving DecidableEq

/-- One item of the `FramedRead` stream over a datagram's payload:
either a successfully decoded frame (zero or more events plus the frame's
byte size) or a decode error. -/
inductive DecodeResult where
  | ok (events : List Event) (byte_size : Nat)
  | err (e : DecodeError)
  deriving DecidableEq

/-- The `UdpConfig` fields the receive loop consults. -/
structure UdpConfig where
  max_length : Nat
  host_key : Option String
  port_key : Option String
  receive_buffer_bytes : Option Nat
  deriving DecidableEq

/-- Effective `max_length`: min of the configured max length and the
receive-buffer override when one is set, else the configured max length. -/
def effectiveMaxLength (c : UdpConfig) : Nat :=
  match c.receive_buffer_bytes with
  | some receive_buffer_bytes => min c.max_length receive_buffer_bytes
  | none => c.max_length

/-- The truncation sentinel: the buffer is `max_length + 1` bytes, and the
datagram was truncated exactly when the byte count read fills it. -/
def truncatedFlag (byte_size max_length : Nat) : Bool :=
  byte_size == max_length + 1

/-- Peer address of a received datagram. -/
structure Address where
  ip : String
  port : Nat
  deriving DecidableEq

/-- Name under which the socket source registers itself
(`SocketConfig::NAME`). -/
def socketConfigName : String := "socket"

/-- Modelled from the spec: `LogNamespace::insert_standard_vector_source_metadata`
is vector-core code not under src/.  Per the spec it stamps the log with
the namespace-scoped standard envelope: the ingestion timestamp and the
source name. -/
def insert_standard_vector_source_metadata (source_name : String) (now : Nat)
    (l : LogEvent) : LogEvent :=
  (l.setField "timestamp" (Value.timestamp now)).setField "source_type" (Value.str source_name)

/-- Modelled from the spec: `LogNamespace::insert_source_metadata` with
`LegacyKey::InsertIfEmpty` is vector-core code not under src/.  Per the
spec the value is inserted at the field path only when that path is
currently empty; an existing value is never overwritten. -/
def insert_if_empty (path : String) (v : Value) (l : LogEvent) : LogEvent :=
  match l.getField path with
  | some _ => l
  | none => l.setField path v

/-- The field path used for the peer host: the configured `host_key`
override, else the global `log_schema().host_key()`. -/
def hostKeyPath (schema_host_key : String) (c : UdpConfig) : String :=
  match c.host_key with
  | some key => key
  | none => schema_host_key

/-- The field path used for the peer port: the configured `port_key`
override, else `"port"`. -/
def portKeyPath (c : UdpConfig) : String :=
  match c.port_key with
  | some key => key
  | none => "port"

/-- The body of the `if let Event::Log` arm: stamp the log with the
standard envelope, then insert the peer IP at the host field path and the
peer port at the port field path, each only if that path is empty. -/
def enrichLog (schema_host_key : String) (c : UdpConfig) (addr : Address)
    (now : Nat) (l : LogEvent) : LogEvent :=
  let l1 := insert_standard_vector_source_metadata socketConfigName now l
  let l2 := insert_if_empty (hostKeyPath schema_host_key c) (Value.str addr.ip) l1
  insert_if_empty (portKeyPath c) (Value.int (Int.ofNat addr.port)) l2

/-- Enrichment applied to each event of a forwarded batch: log events are
stamped with the standard envelope and then the peer IP and peer port are
inserted (if empty) at the configured paths; non-log events pass through
the `if let Event::Log` guard unchanged. -/
def enrichEvent (schema_host_key : String) (c : UdpConfig) (addr : Address)
    (now : Nat) : Event → Event
  | Event.log l => Event.log (enrichLog schema_host_key c addr now l)
  | Event.metric m => Event.metric m

/-- Result value of the `udp` source future: `Ok(())` or `Err(())`. -/
inductive UdpReturn where
  | ok
  | fatal
  deriving DecidableEq

/-- Outcome of processing one datagram's decode results: either the frame
loop finished and control re-enters the outer receive loop, or the `udp`
future returned (recording the batches sent so far, the counts carried by
any `StreamClosedError` emissions, and the return value). -/
inductive DatagramStepResult where
  | nextReceive (sent : List (List Event))
  | returned (sent : List (List Event)) (stream_closed_counts : List Nat) (ret : UdpReturn)
  deriving DecidableEq

/-- Record one successfully sent batch in front of a later outcome. -/
def DatagramStepResult.consBatch (b : List Event) : DatagramStepResult → DatagramStepResult
  | DatagramStepResult.nextReceive s => DatagramStepResult.nextReceive (b :: s)
  | DatagramStepResult.returned s em r => DatagramStepResult.returned (b :: s) em r

/-- The per-datagram frame loop of `udp` (src/sources/socket/udp.rs,
the `while let Some(result) = stream.next()` loop), over the materialized
list of decode results.  `last` is the peek-based lookahead (no further
item follows); on the last successful frame of a truncated datagram the
final event is popped; empty event lists are skipped; non-empty batches
are enriched and sent, a failed send emits `StreamClosedError` with the
batch's event count and returns `Ok(())`; a decode error with
`can_continue = false` breaks out of the frame loop. -/
def runDatagram (enrich : Event → Event) (send_ok : List Event → Bool)
    (truncated : Bool) : List DecodeResult → DatagramStepResult
  | [] => DatagramStepResult.nextReceive []
  | DecodeResult.ok events _byte_size :: rest =>
      let last := rest.isEmpty
      let events := if last && truncated then events.dropLast else events
      if events.isEmpty then
        runDatagram enrich send_ok truncated rest
      else
        let count := events.length
        let batch := events.map enrich
        if send_ok batch then
          (runDatagram enrich send_ok truncated rest).consBatch batch
        else
          DatagramStepResult.returned [] [count] UdpReturn.ok
  | DecodeResult.err e :: rest =>
      if e.can_continue then runDatagram enrich send_ok truncated rest
      else DatagramStepResult.nextReceive []

/-- The batches sent to the output channel by a datagram-step outcome. -/
def DatagramStepResult.sent : DatagramStepResult → List (List Event)
  | DatagramStepResult.nextReceive s => s
  | DatagramStepResult.returned s _ _ => s

/-- Total number of events sent to the output channel. -/
def sentEventCount (r : DatagramStepResult) : Nat :=
  (r.sent.map List.length).sum

/-- The enriched batches the source forwards for one datagram when every
channel send succeeds. -/
def datagramOutput (schema_host_key : String) (c : UdpConfig) (addr : Address)
    (now : Nat) (truncated : Bool) (results : List DecodeResult) : List (List Event) :=
  (runDatagram (enrichEvent schema_host_key c addr now) (fun _ => true) truncated results).sent

def DecodeResult.isOk : DecodeResult → Bool
  | DecodeResult.ok _ _ => true
  | DecodeResult.err _ => false

/-- Every decode result of the datagram is a successful frame. -/
def allOk (rs : List DecodeResult) : Bool := rs.all DecodeResult.isOk

def DecodeResult.eventCount : DecodeResult → Nat
  | DecodeResult.ok es _ => es.length
  | DecodeResult.err _ => 0

/-- Total number of events carried by the datagram's decoded frames. -/
def totalEvents (rs : List DecodeResult) : Nat :=
  (rs.map DecodeResult.eventCount).sum

/-- The final decode result is a successful frame with at least one event. -/
def lastFrameNonempty (rs : List DecodeResult) : Bool :=
  match rs.getLast? with
  | some (DecodeResult.ok es _) => !es.isEmpty
  | _ => false

/-- An OS-level receive error, exposing `raw_os_error`. -/
structure IoError where
  raw_os_error : Option Int
  deriving DecidableEq

/-- What the receive loop does with a failed `recv_from`. -/
inductive RecvErrorOutcome where
  | discardAndContinue
  | fatalReturn
  deriving DecidableEq

/-- The `Err(error)` arm of the receive match: on Windows, raw OS error
10040 (message exceeded `max_length`) logs a warning and continues the
loop; every other error emits `SocketReceiveError` and returns it as the
fatal result. -/
def handleRecvError (windows : Bool) (e : IoError) : RecvErrorOutcome :=
  if windows then
    match e.raw_os_error with
    | some code =>
        if code = 10040 then RecvErrorOutcome.discardAndContinue
        else RecvErrorOutcome.fatalReturn
    | none => RecvErrorOutcome.fatalReturn
  else RecvErrorOutcome.fatalReturn

/- ===== Splunk HEC metrics sink model (src/sinks/splunk_hec/metrics/sink.rs) ===== -/

/-- Modelled from the spec: the template-string rendering engine is an
external collaborator (out of scope); a `Template` exposes the field names
it references (`get_fields`, `None` when it has no dynamic parts) and a
fallible rendering function. -/
structure Template where
  get_fields : Option (List String)
  render : Metric → Option String

/-- Modelled from the spec: `render_template_string` (splunk_hec common
code not under src/) renders a template against the event; an unresolved
template drops that field, not the event. -/
def render_template_string (t : Template) (m : Metric) (_field_name : String) : Option String :=
  t.render m

/-- Modelled from the spec: `encode_namespace` (sinks util code not under
src/) produces the namespace-qualified record name: `namespace`, the
separator, then the name, or the bare name when no namespace applies. -/
def encode_namespace (nspace : Option String) (sep : Char) (name : String) : String :=
  match nspace with
  | some ns => ns.push sep ++ name
  | none => name

/-- Diagnostic emissions of the metrics sink's processing stage. -/
inductive SinkEmission where
  | splunkInvalidMetricReceivedError
  deriving DecidableEq

/-- Derived per-event metadata (`HecMetricsProcessedEventMetadata`). -/
structure HecMetricsProcessedEventMetadata where
  event_byte_size : Nat
  sourcetype : Option String
  source : Option String
  index : Option String
  host : Option String
  metric_name : String
  metric_value : F64
  templated_field_keys : List String
  deriving DecidableEq

/-- `ProcessedEvent<T, Meta>`: a domain event paired with sink-specific
derived metadata. -/
structure ProcessedEvent (T Meta : Type) where
  event : T
  metadata : Meta
  deriving DecidableEq

abbrev HecProcessedEvent := ProcessedEvent Metric HecMetricsProcessedEventMetadata

/-- `HecMetricsProcessedEventMetadata::extract_metric_name`. -/
def HecMetricsProcessedEventMetadata.extract_metric_name (metric : Metric)
    (default_namespace : Option String) : String :=
  encode_namespace
    (match metric.nspace with
     | some ns => some ns
     | none => default_namespace) '.' metric.name

/-- `HecMetricsProcessedEventMetadata::extract_metric_value`, returning
the extracted value together with the diagnostic emissions it produces:
Counter and Gauge yield their value and no emission; every other kind
emits `SplunkInvalidMetricReceivedError` once and yields nothing. -/
def HecMetricsProcessedEventMetadata.extract_metric_value (metric : Metric) :
    Option F64 × List SinkEmission :=
  match metric.value with
  | MetricValue.counter value => (some value, [])
  | MetricValue.gauge value => (some value, [])
  | _ => (none, [SinkEmission.splunkInvalidMetricReceivedError])

/-- Replace every non-overlapping occurrence of `pat` in the character
list, scanning left to right, with `rep`; the fuel argument (instantiated
with the list's length) only makes the recursion structural. -/
def replaceListAux (pat rep : List Char) : Nat → List Char → List Char
  | 0, s => s
  | _fuel + 1, [] => []
  | fuel + 1, c :: rest =>
      if pat.isPrefixOf (c :: rest) && !pat.isEmpty then
        rep ++ replaceListAux pat rep fuel ((c :: rest).drop pat.length)
      else
        c :: replaceListAux pat rep fuel rest

/-- Executable model of Rust `str::replace` (and of `String.replace`):
replace every occurrence of `pat` with `rep`.  (The empty-pattern corner
case is elided; the verified code only ever uses the pattern `"tags."`.) -/
def replaceAll (s pat rep : String) : String :=
  { data := replaceListAux pat.data rep.data s.data.length s.data }

/-- The `templated_field_keys` computation of `process_metric`: the field
names of the index, source and sourcetype templates (in that order, those
present), flattened, each with occurrences of `"tags."` removed. -/
def templated_field_keys (index source sourcetype : Option Template) : List String :=
  ((([index, source, sourcetype].filterMap id).filterMap Template.get_fields).flatten).map
    (fun f => replaceAll f "tags." "")

/-- `process_metric`, returning the optional processed event together with
the diagnostic emissions produced while processing this metric. -/
def process_metric (metric : Metric) (event_byte_size : Nat)
    (sourcetype : Option Template) (source : Option Template) (index : Option Template)
    (host_key : String) (default_namespace : Option String) :
    Option HecProcessedEvent × List SinkEmission :=
  let keys := templated_field_keys index source sourcetype
  let metric_name := HecMetricsProcessedEventMetadata.extract_metric_name metric default_namespace
  match HecMetricsProcessedEventMetadata.extract_metric_value metric with
  | (none, emissions) => (none, emissions)
  | (some metric_value, emissions) =>
      let sourcetype_rendered := sourcetype.bind
        (fun t => render_template_string t metric "sourcetype")
      let source_rendered := source.bind (fun t => render_template_string t metric "source")
      let index_rendered := index.bind (fun t => render_template_string t metric "index")
      let host := metric.tag_value host_key
      (some { event := metric,
              metadata := { event_byte_size := event_byte_size,
                            sourcetype := sourcetype_rendered,
                            source := source_rendered,
                            index := index_rendered,
                            host := host,
                            metric_name := metric_name,
                            metric_value := metric_value,
                            templated_field_keys := keys } },
       emissions)

/-- `EventPartitioner::partition`: the partition key of a processed event
is the Splunk HEC token of its event metadata. -/
def EventPartitioner.partition (item : HecProcessedEvent) : Option String :=
  item.event.metadata.splunk_hec_token

/-- The supported metric value kinds (those `extract_metric_value` accepts). -/
def MetricValue.isSupported : MetricValue → Bool
  | MetricValue.counter _ => true
  | MetricValue.gauge _ => true
  | _ => false

/-- The processed-event stream of `run_inner`: each input metric (paired
with its pre-captured byte size) is passed through `process_metric` and
dropped when processing yields nothing (`filter_map`). -/
def sinkProcessedEvents (sourcetype source index : Option Template) (host_key : String)
    (default_namespace : Option String) (input : List (Nat × Metric)) :
    List HecProcessedEvent :=
  input.filterMap
    (fun p => (process_metric p.2 p.1 sourcetype source index host_key default_namespace).1)

/-- The diagnostic emissions produced by the processing stage over a whole
input stream, in order. -/
def sinkEmissions (sourcetype source index : Option Template) (host_key : String)
    (default_namespace : Option String) (input : List (Nat × Metric)) :
    List SinkEmission :=
  (input.map
    (fun p => (process_metric p.2 p.1 sourcetype source index host_key default_namespace).2)).flatten

/-- One step of the partitioned batcher: route the item to its key's open
batch; when the batch reaches the item-count limit, emit it and close it.
The accumulator is (emitted batches, open batches keyed by partition). -/
def bpStep {α κ : Type} [DecidableEq κ] (max_items : Nat) (keyOf : α → κ)
    (acc : List (κ × List α) × List (κ × List α)) (x : α) :
    List (κ × List α) × List (κ × List α) :=
  let k := keyOf x
  let cur := (lookupAssoc acc.2 k).getD [] ++ [x]
  if max_items ≤ cur.length then
    (acc.1 ++ [(k, cur)], eraseAssoc acc.2 k)
  else
    (acc.1, updateAssoc acc.2 k cur)

/-- Modelled from the spec: `batched_partitioned` (vector-core stream
code not under src/) groups the processed events by partition key,
accumulating each partition's items in arrival order until the configured
batch item-count limit is reached (the time-window bound of a live stream
is not representable over a finite input and is elided), then emits the
batch; remaining non-empty open batches are flushed at end of stream. -/
def batched_partitioned {α κ : Type} [DecidableEq κ] (max_items : Nat) (keyOf : α → κ)
    (items : List α) : List (κ × List α) :=
  let fin := items.foldl (bpStep max_items keyOf) ([], [])
  fin.1 ++ fin.2.filter (fun kb => !kb.2.isEmpty)

/-- A wire request built from one batch, carrying the batch's partition
key (the passthrough token) and its events. -/
structure HecRequest where
  passthrough_token : Option String
  events : List HecProcessedEvent
  deriving DecidableEq

/-- Modelled from the spec: the external `HecMetricsRequestBuilder` builds
one Request per partitioned batch. -/
def buildRequests (max_items : Nat) (items : List HecProcessedEvent) : List HecRequest :=
  (batched_partitioned max_items EventPartitioner.partition items).map
    (fun kb => { passthrough_token := kb.1, events := kb.2 })

/- ===== Concrete fixtures used by witnesses and counterexamples ===== -/

/-- A log event with no fields. -/
def emptyLog : Event := Event.log { fields := [] }

/-- A counter metric named "a" with value 1 and no routing token. -/
def sampleCounter : Metric :=
  { name := "a", nspace := none, tags := [], kind := MetricKind.absolute,
    value := MetricValue.counter 1, metadata := { splunk_hec_token := none } }

/-- A gauge metric named "b" with value 2 and no routing token. -/
def sampleGauge : Metric :=
  { name := "b", nspace := none, tags := [], kind := MetricKind.absolute,
    value := MetricValue.gauge 2, metadata := { splunk_hec_token := none } }

/-- A distribution metric (an unsupported value kind for the HEC sink). -/
def sampleDistribution : Metric :=
  { name := "d", nspace := none, tags := [], kind := MetricKind.absolute,
    value := MetricValue.distribution, metadata := { splunk_hec_token := none } }

/-- The processed event `process_metric` derives from `sampleCounter`
with byte size 0 and no templates. -/
def processedCounter : HecProcessedEvent :=
  { event := sampleCounter,
    metadata := { event_byte_size := 0, sourcetype := none, source := none, index := none,
                  host := none, metric_name := "a", metric_value := 1,
                  templated_field_keys := [] } }

/-- The processed event `process_metric` derives from `sampleGauge`
with byte size 0 and no templates. -/
def processedGauge : HecProcessedEvent :=
  { event := sampleGauge,
    metadata := { event_byte_size := 0, sourcetype := none, source := none, index := none,
                  host := none, metric_name := "b", metric_value := 2,
                  templated_field_keys := [] } }

/-- A template referencing the single field `hostname`, which is not
tag-derived. -/
def hostnameTemplate : Template :=
  { get_fields := some ["hostname"], render := fun _ => none }

/-- A UDP configuration with default host/port keys. -/
def sampleUdpConfig : UdpConfig :=
  { max_length := 100, host_key := none, port_key := some "port",
    receive_buffer_bytes := none }

/-- A sample peer address. -/
def sampleAddr : Address := { ip := "1.2.3.4", port := 9000 }

/-- The claim's reading of `templated_field_keys`: only the template field
names that reference tag-derived values (those of the form `tags.<name>`),
stripped of the `tags.` prefix. -/
def tagReferencingFieldKeys (index source sourcetype : Option Template) : List String :=
  (((([index, source, sourcetype].filterMap id).filterMap Template.get_fields).flatten).filter
    (fun f => "tags.".data.isPrefixOf f.data)).map (fun f => replaceAll f "tags." "")

/-- The processed event `process_metric` derives from `sampleCounter`
with byte size 7 and `hostnameTemplate` as the index template. -/
def processedHostname : HecProcessedEvent :=
  { event := sampleCounter,
    metadata := { event_byte_size := 7, sourcetype := none, source := none, index := none,
                  host := none, metric_name := "a", metric_value := 1,
                  templated_field_keys := ["hostname"] } }

/-- The original C7 claim's stamping predicate for a single forwarded
event: some value is present at the host field path (for a metric event,
host information could only live in its tags). -/
def eventHostStamped (host_path : String) : Event → Bool
  | Event.log l => (l.getField host_path).isSome
  | Event.metric m => (m.tag_value host_path).isSome

/- ===== Helper lemmas ===== -/

@[simp]
theorem sent_consBatch (b : List Event) (r : DatagramStepResult) :
    (r.consBatch b).sent = b :: r.sent := by
  cases r <;> rfl

@[simp]
theorem sentEventCount_consBatch (b : List Event) (r : DatagramStepResult) :
    sentEventCount (r.consBatch b) = b.length + sentEventCount r := by
  cases r <;> simp [sentEventCount, DatagramStepResult.sent, DatagramStepResult.consBatch]

@[simp]
theorem sent_nextReceive (s : List (List Event)) :
    (DatagramStepResult.nextReceive s).sent = s := rfl

@[simp]
theorem sent_returned (s : List (List Event)) (em : List Nat) (r : UdpReturn) :
    (DatagramStepResult.returned s em r).sent = s := rfl

@[simp]
theorem sentEventCount_nextReceive (s : List (List Event)) :
    sentEventCount (DatagramStepResult.nextReceive s) = (s.map List.length).sum := rfl

@[simp]
theorem eventCount_ok (es : List Event) (sz : Nat) :
    (DecodeResult.ok es sz).eventCount = es.length := rfl

@[simp]
theorem eventCount_err (e : DecodeError) : (DecodeResult.err e).eventCount = 0 := rfl

@[simp]
theorem totalEvents_nil : totalEvents [] = 0 := rfl

@[simp]
theorem totalEvents_cons (r : DecodeResult) (rs : List DecodeResult) :
    totalEvents (r :: rs) = DecodeResult.eventCount r + totalEvents rs := by
  simp [totalEvents]

theorem consBatch_returned {b : List Event} {r : DatagramStepResult}
    {sent : List (List Event)} {em : List Nat} {ret : UdpReturn}
    (h : r.consBatch b = DatagramStepResult.returned sent em ret) :
    ∃ s', r = DatagramStepResult.returned s' em ret ∧ sent = b :: s' := by
  cases r with
  | nextReceive s => simp [DatagramStepResult.consBatch] at h
  | returned s em' ret' =>
      simp [DatagramStepResult.consBatch] at h
      exact ⟨s, by simp [h.2.1, h.2.2], h.1.symm⟩

/-- C5: a receive error whose raw OS error is 10040 on Windows (the
platform-specific "message too long" case) makes the loop discard the
datagram, log a warning and continue; every other receive error is fatal:
`SocketReceiveError` is emitted and the run returns it as an error. -/
theorem udp_recv_error_policy (windows : Bool) (e : IoError) :
    (handleRecvError windows e = RecvErrorOutcome.discardAndContinue ↔
      windows = true ∧ e.raw_os_error = some 10040) ∧
    (handleRecvError windows e = RecvErrorOutcome.fatalReturn ↔
      ¬(windows = true ∧ e.raw_os_error = some 10040)) := by
  rcases e with ⟨ro⟩
  cases windows <;> rcases ro with _ | code <;> simp [handleRecvError]

/-- C9: a Metric event passes through the enrichment step of the UDP
source completely unchanged: the timestamp/source-name envelope and the
peer host and port insertions apply only to the `Event::Log` arm, and the
fall-through arm forwards any non-Log event with all fields unmodified. -/
theorem udp_metric_enrichment_passthrough (schema_host_key : String) (c : UdpConfig)
    (addr : Address) (now : Nat) (m : Metric) :
    enrichEvent schema_host_key c addr now (Event.metric m) = Event.metric m := rfl

/-- C4: on a decode error, the frame loop consults `can_continue`: if it
is true only that frame is skipped and processing continues with the next
decode result of the same datagram; if it is false the remainder of the
datagram (everything after the error) is never processed — the loop
behaves exactly as if the datagram ended at that error. -/
theorem udp_decode_error_policy (enrich : Event → Event) (send_ok : List Event → Bool)
    (truncated : Bool) (e : DecodeError) :
    (∀ rest, e.can_continue = true →
       runDatagram enrich send_ok truncated (DecodeResult.err e :: rest)
         = runDatagram enrich send_ok truncated rest) ∧
    (∀ pre rest, e.can_continue = false →
       runDatagram enrich send_ok truncated (pre ++ DecodeResult.err e :: rest)
         = runDatagram enrich send_ok truncated (pre ++ [DecodeResult.err e])) := by
  constructor
  · intro rest h
    simp [runDatagram, h]
  · intro pre rest h
    induction pre with
    | nil => simp [runDatagram, h]
    | cons r pre ih =>
        cases r with
        | ok es sz =>
            have h1 : (pre ++ DecodeResult.err e :: rest).isEmpty = false := by
              cases pre <;> rfl
            have h2 : (pre ++ [DecodeResult.err e]).isEmpty = false := by
              cases pre <;> rfl
            simp [runDatagram, h1, h2, ih]
        | err e' =>
            cases hcc : e'.can_continue <;> simp [runDatagram, hcc, ih]

/-- C4 witness: a concrete instantiation of both arms of the decode-error
policy theorem. -/
theorem udp_decode_error_policy_witness :
    runDatagram id (fun _ => true) false
        [DecodeResult.err { can_continue := true }, DecodeResult.ok [emptyLog] 1]
      = runDatagram id (fun _ => true) false [DecodeResult.ok [emptyLog] 1] ∧
    runDatagram id (fun _ => true) false
        ([DecodeResult.ok [emptyLog] 1] ++
          DecodeResult.err { can_continue := false } :: [DecodeResult.ok [emptyLog] 2])
      = runDatagram id (fun _ => true) false
          ([DecodeResult.ok [emptyLog] 1] ++ [DecodeResult.err { can_continue := false }]) :=
  ⟨(udp_decode_error_policy id (fun _ => true) false { can_continue := true }).1
      [DecodeResult.ok [emptyLog] 1] rfl,
   (udp_decode_error_policy id (fun _ => true) false { can_continue := false }).2
      [DecodeResult.ok [emptyLog] 1] [DecodeResult.ok [emptyLog] 2] rfl⟩

/-- C6: whenever processing a datagram makes the `udp` future return from
inside the frame loop (the `.returned` outcome, which happens exactly on a
failed channel send — the receiver is gone), the return value is `Ok(())`
(a clean shutdown, not an error), exactly one `StreamClosedError`
diagnostic was emitted, and the receive loop is not re-entered (a
re-entered loop is the `.nextReceive` outcome).  Moreover a failed send of
a non-final untruncated frame's non-empty batch produces exactly this
outcome, with the `StreamClosedError` carrying the batch's event count. -/
theorem udp_send_failure_clean_shutdown (enrich : Event → Event)
    (send_ok : List Event → Bool) (truncated : Bool) :
    (∀ rs sent em ret,
       runDatagram enrich send_ok truncated rs = DatagramStepResult.returned sent em ret →
       ret = UdpReturn.ok ∧ em.length = 1) ∧
    (∀ (es : List Event) (sz : Nat) (rest : List DecodeResult),
       (rest.isEmpty && truncated) = false → es.isEmpty = false →
       send_ok (es.map enrich) = false →
       runDatagram enrich send_ok truncated (DecodeResult.ok es sz :: rest)
         = DatagramStepResult.returned [] [es.length] UdpReturn.ok) := by
  constructor
  · intro rs
    induction rs with
    | nil =>
        intro sent em ret h
        simp [runDatagram] at h
    | cons r rest ih =>
        intro sent em ret h
        cases r with
        | ok es sz =>
            simp only [runDatagram] at h
            split at h <;> split at h
            · exact ih _ _ _ h
            · split at h
              · obtain ⟨s', hr, _⟩ := consBatch_returned h
                exact ih _ _ _ hr
              · cases h
                exact ⟨rfl, rfl⟩
            · exact ih _ _ _ h
            · split at h
              · obtain ⟨s', hr, _⟩ := consBatch_returned h
                exact ih _ _ _ hr
              · cases h
                exact ⟨rfl, rfl⟩
        | err e =>
            simp only [runDatagram] at h
            split at h
            · exact ih _ _ _ h
            · cases h
  · intro es sz rest h1 h2 h3
    simp [runDatagram, h1, h2, h3]

/-- C6 witness: a concrete failing send; the theorem applied to it shows
the clean `Ok` return with one `StreamClosedError`. -/
theorem udp_send_failure_clean_shutdown_witness :
    UdpReturn.ok = UdpReturn.ok ∧ List.length [1] = 1 :=
  (udp_send_failure_clean_shutdown id (fun _ => false) false).1
    [DecodeResult.ok [emptyLog] 1] [] [1] UdpReturn.ok (by decide)

theorem lastFrameNonempty_pos :
    ∀ rs : List DecodeResult, lastFrameNonempty rs = true → 1 ≤ totalEvents rs := by
  intro rs
  induction rs with
  | nil => intro h; simp [lastFrameNonempty] at h
  | cons r rest ih =>
      intro h
      cases rest with
      | nil =>
          cases r with
          | ok es sz =>
              simp [lastFrameNonempty, List.getLast?] at h
              have : es ≠ [] := by
                intro he; rw [he] at h; simp at h
              have : 1 ≤ es.length := List.length_pos.mpr this
              simpa [totalEvents, DecodeResult.eventCount] using this
          | err e => simp [lastFrameNonempty, List.getLast?] at h
      | cons r' rest' =>
          have h' : lastFrameNonempty (r' :: rest') = true := by
            simpa [lastFrameNonempty] using h
          have := ih h'
          simp only [totalEvents, List.map_cons, List.sum_cons] at this ⊢
          omega

theorem sentEventCount_truncated (enrich : Event → Event) :
    ∀ rs : List DecodeResult, allOk rs = true → lastFrameNonempty rs = true →
      sentEventCount (runDatagram enrich (fun _ => true) true rs) = totalEvents rs - 1 := by
  intro rs
  induction rs with
  | nil => intro _ h; simp [lastFrameNonempty] at h
  | cons r rest ih =>
      intro hall hlast
      cases r with
      | err e => simp [allOk, DecodeResult.isOk] at hall
      | ok es sz =>
          have hall' : allOk rest = true := by
            simpa [allOk, DecodeResult.isOk] using hall
          cases rest with
          | nil =>
              have hes : es ≠ [] := by
                simp [lastFrameNonempty, List.getLast?] at hlast
                intro he; rw [he] at hlast; simp at hlast
              by_cases hde : es.dropLast.isEmpty
              · have hnil : es.dropLast = [] := by simpa [List.isEmpty_iff] using hde
                have hlen : es.length - 1 = 0 := by
                  have := congrArg List.length hnil
                  simpa [List.length_dropLast] using this
                simp [runDatagram, hde, sentEventCount, DatagramStepResult.sent,
                  totalEvents, DecodeResult.eventCount]
                omega
              · have hrun : runDatagram enrich (fun _ => true) true [DecodeResult.ok es sz]
                    = DatagramStepResult.consBatch (es.dropLast.map enrich)
                        (DatagramStepResult.nextReceive []) := by
                  simp [runDatagram, hde]
                rw [hrun, sentEventCount_consBatch]
                simp only [List.length_map, List.length_dropLast, totalEvents_cons,
                  totalEvents_nil, eventCount_ok, sentEventCount_nextReceive,
                  List.map_nil, List.sum_nil]
                omega
          | cons r' rest' =>
              have hlast' : lastFrameNonempty (r' :: rest') = true := by
                simpa [lastFrameNonempty] using hlast
              have hpos := lastFrameNonempty_pos _ hlast'
              by_cases hemp : es.isEmpty
              · have he : es = [] := by simpa [List.isEmpty_iff] using hemp
                subst he
                simpa [runDatagram, totalEvents, DecodeResult.eventCount]
                  using ih hall' hlast'
              · have hrun : sentEventCount
                    (runDatagram enrich (fun _ => true) true
                      (DecodeResult.ok es sz :: r' :: rest'))
                      = es.length +
                        sentEventCount (runDatagram enrich (fun _ => true) true (r' :: rest')) := by
                  simp [runDatagram, hemp]
                rw [hrun, ih hall' hlast']
                simp only [totalEvents_cons, eventCount_ok] at hpos ⊢
                omega

theorem sentEventCount_not_truncated (enrich : Event → Event) :
    ∀ rs : List DecodeResult, allOk rs = true →
      sentEventCount (runDatagram enrich (fun _ => true) false rs) = totalEvents rs := by
  intro rs
  induction rs with
  | nil => intro _; simp [runDatagram, sentEventCount, DatagramStepResult.sent, totalEvents]
  | cons r rest ih =>
      intro hall
      cases r with
      | err e => simp [allOk, DecodeResult.isOk] at hall
      | ok es sz =>
          have hall' : allOk rest = true := by
            simpa [allOk, DecodeResult.isOk] using hall
          by_cases hemp : es.isEmpty
          · have he : es = [] := by simpa [List.isEmpty_iff] using hemp
            subst he
            simpa [runDatagram, totalEvents, DecodeResult.eventCount] using ih hall'
          · simp [runDatagram, hemp, ih hall', totalEvents, DecodeResult.eventCount]

/-- C1 (amended): for a datagram read of exactly `max_length + 1` bytes
(the truncation sentinel) whose decode results are all successful frames
totalling N events, the UDP source forwards exactly N−1 events provided
the final frame's event list is non-empty (its last event is dropped);
for a datagram of `max_length` bytes or fewer producing the same frames,
all N events are forwarded.  (When the final frame decodes to zero
events, the pop is a no-op and all N events are forwarded — see the
counterexample to the unamended claim.) -/
theorem udp_truncation_drop (enrich : Event → Event) (max_length byte_size : Nat)
    (rs : List DecodeResult) (hall : allOk rs = true) :
    (byte_size = max_length + 1 → lastFrameNonempty rs = true →
       sentEventCount (runDatagram enrich (fun _ => true)
           (truncatedFlag byte_size max_length) rs)
         = totalEvents rs - 1) ∧
    (byte_size ≤ max_length →
       sentEventCount (runDatagram enrich (fun _ => true)
           (truncatedFlag byte_size max_length) rs)
         = totalEvents rs) := by
  constructor
  · intro hbs hlast
    have ht : truncatedFlag byte_size max_length = true := by
      simp [truncatedFlag, hbs]
    rw [ht]
    exact sentEventCount_truncated enrich rs hall hlast
  · intro hbs
    have ht : truncatedFlag byte_size max_length = false := by
      simp only [truncatedFlag, beq_eq_false_iff_ne, ne_eq]
      omega
    rw [ht]
    exact sentEventCount_not_truncated enrich rs hall

/-- C1 counterexample: a truncated datagram (5 bytes read with
`max_length = 4`) whose two frames decode successfully into N = 2 events,
with the final frame decoding to zero events: the `events.pop()` on the
empty final list drops nothing, so all 2 events are forwarded, not
N − 1 = 1 as the claim states for every such datagram. -/
theorem udp_truncation_drop_counterexample :
    allOk [DecodeResult.ok [emptyLog, emptyLog] 3, DecodeResult.ok [] 2] = true ∧
    totalEvents [DecodeResult.ok [emptyLog, emptyLog] 3, DecodeResult.ok [] 2] = 2 ∧
    sentEventCount (runDatagram id (fun _ => true) (truncatedFlag 5 4)
        [DecodeResult.ok [emptyLog, emptyLog] 3, DecodeResult.ok [] 2]) ≠ 2 - 1 := by
  refine ⟨by decide, by decide, ?_⟩
  decide

/-- C1 witness: a truncated single-frame datagram with two events
forwards one event; the same frame untruncated forwards both. -/
theorem udp_truncation_drop_witness :
    sentEventCount (runDatagram id (fun _ => true) (truncatedFlag 5 4)
        [DecodeResult.ok [emptyLog, emptyLog] 5])
      = totalEvents [DecodeResult.ok [emptyLog, emptyLog] 5] - 1 ∧
    sentEventCount (runDatagram id (fun _ => true) (truncatedFlag 4 4)
        [DecodeResult.ok [emptyLog, emptyLog] 4])
      = totalEvents [DecodeResult.ok [emptyLog, emptyLog] 4] :=
  ⟨(udp_truncation_drop id 4 5 [DecodeResult.ok [emptyLog, emptyLog] 5] (by decide)).1
      rfl (by decide),
   (udp_truncation_drop id 4 4 [DecodeResult.ok [emptyLog, emptyLog] 4] (by decide)).2
      (by decide)⟩

/-- C10: for a truncated datagram (exactly `max_length + 1` bytes read)
whose final decode result is an error, no event is dropped: the
truncation pop only runs in the success arm, and every event of the
earlier successfully decoded frames is forwarded. -/
theorem udp_trailing_error_no_drop (enrich : Event → Event) (max_length : Nat)
    (e : DecodeError) (pre : List DecodeResult) (hall : allOk pre = true) :
    sentEventCount (runDatagram enrich (fun _ => true)
        (truncatedFlag (max_length + 1) max_length) (pre ++ [DecodeResult.err e]))
      = totalEvents pre := by
  have ht : truncatedFlag (max_length + 1) max_length = true := by
    simp [truncatedFlag]
  rw [ht]
  clear ht
  induction pre with
  | nil =>
      cases hcc : e.can_continue <;> simp [runDatagram, hcc]
  | cons r pre ih =>
      cases r with
      | err e' => simp [allOk, DecodeResult.isOk] at hall
      | ok es sz =>
          have hall' : allOk pre = true := by
            simpa [allOk, DecodeResult.isOk] using hall
          have hne : (pre ++ [DecodeResult.err e]).isEmpty = false := by
            cases pre <;> rfl
          by_cases hemp : es.isEmpty
          · have he : es = [] := by simpa [List.isEmpty_iff] using hemp
            subst he
            simpa [runDatagram, hne] using ih hall'
          · have hrun : runDatagram enrich (fun _ => true) true
                ((DecodeResult.ok es sz :: pre) ++ [DecodeResult.err e])
                = (runDatagram enrich (fun _ => true) true
                    (pre ++ [DecodeResult.err e])).consBatch (es.map enrich) := by
              simp [runDatagram, hne, hemp]
            rw [hrun, sentEventCount_consBatch, ih hall']
            simp

/-- C10 witness: a concrete truncated datagram ending in a decode error;
both events of the earlier successful frame are forwarded. -/
theorem udp_trailing_error_no_drop_witness :
    sentEventCount (runDatagram id (fun _ => true) (truncatedFlag 5 4)
        ([DecodeResult.ok [emptyLog, emptyLog] 3] ++
          [DecodeResult.err { can_continue := true }]))
      = totalEvents [DecodeResult.ok [emptyLog, emptyLog] 3] :=
  udp_trailing_error_no_drop id 4 { can_continue := true }
    [DecodeResult.ok [emptyLog, emptyLog] 3] (by decide)

theorem process_metric_fst_isSome (st src idx : Option Template) (hk : String)
    (dn : Option String) (m : Metric) (sz : Nat) :
    ((process_metric m sz st src idx hk dn).1).isSome = m.value.isSupported := by
  rcases m with ⟨nm, ns, tg, kd, val, md⟩
  cases val <;>
    simp [process_metric, HecMetricsProcessedEventMetadata.extract_metric_value,
      MetricValue.isSupported]

theorem process_metric_snd (st src idx : Option Template) (hk : String)
    (dn : Option String) (m : Metric) (sz : Nat) :
    (process_metric m sz st src idx hk dn).2 =
      if m.value.isSupported then []
      else [SinkEmission.splunkInvalidMetricReceivedError] := by
  rcases m with ⟨nm, ns, tg, kd, val, md⟩
  cases val <;>
    simp [process_metric, HecMetricsProcessedEventMetadata.extract_metric_value,
      MetricValue.isSupported]

theorem filterMap_eq_filterMap_filter {α β : Type} (f : α → Option β) (p : α → Bool)
    (hpf : ∀ a, (f a).isSome = p a) :
    ∀ l : List α, l.filterMap f = (l.filter p).filterMap f := by
  intro l
  induction l with
  | nil => rfl
  | cons a rest ih =>
      rcases hfa : f a with _ | b
      · have hpa : p a = false := by rw [← hpf a, hfa]; rfl
        simp [List.filterMap_cons, List.filter_cons, hfa, hpa, ih]
      · have hpa : p a = true := by rw [← hpf a, hfa]; rfl
        simp [List.filterMap_cons, List.filter_cons, hfa, hpa, ih]

/-- C3: an event whose metric value kind is neither Counter nor Gauge is
processed to `None` with exactly one `SplunkInvalidMetricReceivedError`
emission, so it is absent from the processed-event stream (and hence from
every batch and Request built over it); Counter and Gauge events have
their numeric value extracted into the derived metadata, with no
emission.  Over a whole input stream, the processed events are exactly
those of the supported-kind inputs and the number of diagnostic emissions
equals the number of unsupported-kind inputs. -/
theorem hec_unsupported_kind_drop (st src idx : Option Template) (hk : String)
    (dn : Option String) :
    (∀ (m : Metric) (sz : Nat), m.value.isSupported = false →
       process_metric m sz st src idx hk dn =
         (none, [SinkEmission.splunkInvalidMetricReceivedError])) ∧
    (∀ (m : Metric) (sz : Nat) (v : F64),
       (m.value = MetricValue.counter v ∨ m.value = MetricValue.gauge v) →
       ∃ pe, (process_metric m sz st src idx hk dn).1 = some pe ∧
         pe.metadata.metric_value = v ∧
         (process_metric m sz st src idx hk dn).2 = []) ∧
    (∀ input : List (Nat × Metric),
       sinkProcessedEvents st src idx hk dn input =
         sinkProcessedEvents st src idx hk dn
           (input.filter (fun p => p.2.value.isSupported))) ∧
    (∀ input : List (Nat × Metric),
       (sinkEmissions st src idx hk dn input).length =
         (input.filter (fun p => !p.2.value.isSupported)).length) := by
  refine ⟨?_, ?_, ?_, ?_⟩
  · intro m sz h
    rcases m with ⟨nm, ns, tg, kd, val, md⟩
    cases val <;> simp [MetricValue.isSupported] at h <;>
      simp [process_metric, HecMetricsProcessedEventMetadata.extract_metric_value]
  · intro m sz v h
    rcases m with ⟨nm, ns, tg, kd, val, md⟩
    rcases h with h | h <;> cases h <;> exact ⟨_, rfl, rfl, rfl⟩
  · intro input
    exact filterMap_eq_filterMap_filter _ _
      (fun p => process_metric_fst_isSome st src idx hk dn p.2 p.1) input
  · intro input
    induction input with
    | nil => rfl
    | cons p rest ih =>
        have hsnd := process_metric_snd st src idx hk dn p.2 p.1
        by_cases hs : p.2.value.isSupported
        · simp [sinkEmissions, List.filter_cons, hs, hsnd] at ih ⊢
          exact ih
        · simp only [Bool.not_eq_true] at hs
          simp [sinkEmissions, List.filter_cons, hs, hsnd] at ih ⊢
          exact ih

/-- C3 witness: concrete unsupported (distribution) and supported
(counter) metrics run through each conjunct of the theorem. -/
theorem hec_unsupported_kind_drop_witness :
    process_metric sampleDistribution 7 none none none "host" none =
      (none, [SinkEmission.splunkInvalidMetricReceivedError]) ∧
    (∃ pe, (process_metric sampleCounter 0 none none none "host" none).1 = some pe ∧
       pe.metadata.metric_value = 1 ∧
       (process_metric sampleCounter 0 none none none "host" none).2 = []) ∧
    sinkProcessedEvents none none none "host" none
        [(7, sampleDistribution), (0, sampleCounter)] =
      sinkProcessedEvents none none none "host" none
        ([(7, sampleDistribution), (0, sampleCounter)].filter
          (fun p => p.2.value.isSupported)) ∧
    (sinkEmissions none none none "host" none
        [(7, sampleDistribution), (0, sampleCounter)]).length =
      ([(7, sampleDistribution), (0, sampleCounter)].filter
        (fun p => !p.2.value.isSupported)).length :=
  ⟨(hec_unsupported_kind_drop none none none "host" none).1 sampleDistribution 7 (by decide),
   (hec_unsupported_kind_drop none none none "host" none).2.1 sampleCounter 0 1 (Or.inl rfl),
   (hec_unsupported_kind_drop none none none "host" none).2.2.1
     [(7, sampleDistribution), (0, sampleCounter)],
   (hec_unsupported_kind_drop none none none "host" none).2.2.2
     [(7, sampleDistribution), (0, sampleCounter)]⟩

/-- C8 counterexample: with an index template referencing the single
field `hostname` — a field that does not reference any tag-derived value
— the processed event's `templated_field_keys` is `["hostname"]`, while
the set of tag-referencing field names is empty; the list therefore does
not contain "exactly those template field names that reference
tag-derived values". -/
theorem hec_templated_field_keys_counterexample :
    ((process_metric sampleCounter 7 none none (some hostnameTemplate) "host" none).1.map
        (fun pe => pe.metadata.templated_field_keys)) = some ["hostname"] ∧
    tagReferencingFieldKeys (some hostnameTemplate) none none = [] := by
  exact ⟨by decide, by decide⟩

/-- C8 (amended): for every processed metric event, the
`templated_field_keys` list in its derived metadata contains the field
names of all three configured templates — index, source and sourcetype,
in that order — with every occurrence of `"tags."` removed, regardless of
whether a field references a tag-derived value. -/
theorem hec_templated_field_keys (st src idx : Option Template) (hk : String)
    (dn : Option String) (m : Metric) (sz : Nat) (pe : HecProcessedEvent)
    (em : List SinkEmission)
    (h : process_metric m sz st src idx hk dn = (some pe, em)) :
    pe.metadata.templated_field_keys = templated_field_keys idx src st := by
  rcases m with ⟨nm, ns, tg, kd, val, md⟩
  cases val <;>
    simp [process_metric, HecMetricsProcessedEventMetadata.extract_metric_value] at h <;>
    rw [← h.1]

/-- C8 witness: the concrete processed event derived from `sampleCounter`
under the `hostname` index template. -/
theorem hec_templated_field_keys_witness :
    processedHostname.metadata.templated_field_keys =
      templated_field_keys (some hostnameTemplate) none none :=
  hec_templated_field_keys none none (some hostnameTemplate) "host" none sampleCounter 7
    processedHostname [] (by decide)

theorem lookupAssoc_mem {κ β : Type} [DecidableEq κ] :
    ∀ (l : List (κ × β)) (k : κ) (b : β), lookupAssoc l k = some b → (k, b) ∈ l := by
  intro l
  induction l with
  | nil => intro k b h; simp [lookupAssoc] at h
  | cons p rest ih =>
      intro k b h
      rcases p with ⟨k', v⟩
      by_cases hk : k' = k
      · subst hk
        simp [lookupAssoc] at h
        subst h
        exact List.mem_cons_self _ _
      · simp [lookupAssoc, hk] at h
        exact List.mem_cons_of_mem _ (ih k b h)

theorem mem_updateAssoc {κ β : Type} [DecidableEq κ] :
    ∀ (l : List (κ × β)) (k : κ) (v : β) (kb : κ × β),
      kb ∈ updateAssoc l k v → kb = (k, v) ∨ kb ∈ l := by
  intro l
  induction l with
  | nil =>
      intro k v kb h
      simp [updateAssoc] at h
      exact Or.inl h
  | cons p rest ih =>
      intro k v kb h
      rcases p with ⟨k', w⟩
      by_cases hk : k' = k
      · rw [show updateAssoc ((k', w) :: rest) k v = (k, v) :: rest from by
          simp [updateAssoc, hk]] at h
        rcases List.mem_cons.mp h with h | h
        · exact Or.inl h
        · exact Or.inr (List.mem_cons_of_mem _ h)
      · rw [show updateAssoc ((k', w) :: rest) k v = (k', w) :: updateAssoc rest k v from by
          simp [updateAssoc, hk]] at h
        rcases List.mem_cons.mp h with h | h
        · exact Or.inr (by simp [h])
        · rcases ih k v kb h with h' | h'
          · exact Or.inl h'
          · exact Or.inr (List.mem_cons_of_mem _ h')

theorem mem_eraseAssoc {κ β : Type} [DecidableEq κ] :
    ∀ (l : List (κ × β)) (k : κ) (kb : κ × β), kb ∈ eraseAssoc l k → kb ∈ l := by
  intro l
  induction l with
  | nil => intro k kb h; simp [eraseAssoc] at h
  | cons p rest ih =>
      intro k kb h
      rcases p with ⟨k', w⟩
      by_cases hk : k' = k
      · rw [show eraseAssoc ((k', w) :: rest) k = eraseAssoc rest k from by
          simp [eraseAssoc, hk]] at h
        exact List.mem_cons_of_mem _ (ih k kb h)
      · rw [show eraseAssoc ((k', w) :: rest) k = (k', w) :: eraseAssoc rest k from by
          simp [eraseAssoc, hk]] at h
        rcases List.mem_cons.mp h with h | h
        · exact (by simp [h])
        · exact List.mem_cons_of_mem _ (ih k kb h)

theorem bpStep_consistent {α κ : Type} [DecidableEq κ] (max_items : Nat) (keyOf : α → κ)
    (acc : List (κ × List α) × List (κ × List α)) (x : α)
    (h1 : ∀ kb ∈ acc.1, ∀ y ∈ kb.2, keyOf y = kb.1)
    (h2 : ∀ kb ∈ acc.2, ∀ y ∈ kb.2, keyOf y = kb.1) :
    (∀ kb ∈ (bpStep max_items keyOf acc x).1, ∀ y ∈ kb.2, keyOf y = kb.1) ∧
    (∀ kb ∈ (bpStep max_items keyOf acc x).2, ∀ y ∈ kb.2, keyOf y = kb.1) := by
  have hcur : ∀ y ∈ (lookupAssoc acc.2 (keyOf x)).getD [] ++ [x], keyOf y = keyOf x := by
    intro y hy
    rcases List.mem_append.mp hy with hy | hy
    · rcases hl : lookupAssoc acc.2 (keyOf x) with _ | b
      · rw [hl] at hy; simp at hy
      · rw [hl] at hy
        exact h2 _ (lookupAssoc_mem _ _ _ hl) y hy
    · simp at hy
      subst hy
      rfl
  simp only [bpStep]
  by_cases hlen : max_items ≤ ((lookupAssoc acc.2 (keyOf x)).getD [] ++ [x]).length
  · simp only [if_pos hlen]
    constructor
    · intro kb hkb y hy
      rcases List.mem_append.mp hkb with hkb | hkb
      · exact h1 kb hkb y hy
      · simp at hkb
        subst hkb
        exact hcur y hy
    · intro kb hkb y hy
      exact h2 kb (mem_eraseAssoc _ _ _ hkb) y hy
  · simp only [if_neg hlen]
    constructor
    · exact h1
    · intro kb hkb y hy
      rcases mem_updateAssoc _ _ _ _ hkb with h | h
      · subst h
        exact hcur y hy
      · exact h2 kb h y hy

theorem foldl_bpStep_consistent {α κ : Type} [DecidableEq κ] (max_items : Nat)
    (keyOf : α → κ) :
    ∀ (items : List α) (acc : List (κ × List α) × List (κ × List α)),
      (∀ kb ∈ acc.1, ∀ y ∈ kb.2, keyOf y = kb.1) →
      (∀ kb ∈ acc.2, ∀ y ∈ kb.2, keyOf y = kb.1) →
      (∀ kb ∈ (items.foldl (bpStep max_items keyOf) acc).1, ∀ y ∈ kb.2, keyOf y = kb.1) ∧
      (∀ kb ∈ (items.foldl (bpStep max_items keyOf) acc).2, ∀ y ∈ kb.2, keyOf y = kb.1) := by
  intro items
  induction items with
  | nil => intro acc h1 h2; exact ⟨h1, h2⟩
  | cons x rest ih =>
      intro acc h1 h2
      have h := bpStep_consistent max_items keyOf acc x h1 h2
      exact ih _ h.1 h.2

theorem batched_partitioned_consistent {α κ : Type} [DecidableEq κ] (max_items : Nat)
    (keyOf : α → κ) (items : List α) :
    ∀ kb ∈ batched_partitioned max_items keyOf items, ∀ y ∈ kb.2, keyOf y = kb.1 := by
  intro kb hkb
  have h := foldl_bpStep_consistent max_items keyOf items ([], [])
    (by intro kb hkb; simp at hkb) (by intro kb hkb; simp at hkb)
  simp only [batched_partitioned] at hkb
  rcases List.mem_append.mp hkb with hkb | hkb
  · exact h.1 kb hkb
  · exact h.2 kb (List.mem_of_mem_filter hkb)

/-- C2: every batch produced by the partitioned batcher is homogeneous in
the partition key — each item's key (the Splunk HEC token of its event
metadata, an Option) equals the batch's key — and the same holds of the
events of every built Request, so two events with differing keys never
share a batch or a Request; and two events whose keys are both absent can
share a batch (shown by a concrete input producing one shared batch). -/
theorem hec_partition_isolation :
    (∀ (max_items : Nat) (items : List HecProcessedEvent) kb,
       kb ∈ batched_partitioned max_items EventPartitioner.partition items →
       ∀ x ∈ kb.2, EventPartitioner.partition x = kb.1) ∧
    (∀ (max_items : Nat) (items : List HecProcessedEvent) r,
       r ∈ buildRequests max_items items →
       ∀ x ∈ r.events, EventPartitioner.partition x = r.passthrough_token) ∧
    (batched_partitioned 5 EventPartitioner.partition [processedCounter, processedGauge]
       = [(none, [processedCounter, processedGauge])] ∧
     EventPartitioner.partition processedCounter = none ∧
     EventPartitioner.partition processedGauge = none) := by
  refine ⟨?_, ?_, by decide, by decide, by decide⟩
  · intro max_items items kb hkb x hx
    exact batched_partitioned_consistent max_items EventPartitioner.partition items kb hkb x hx
  · intro max_items items r hr x hx
    simp only [buildRequests, List.mem_map] at hr
    rcases hr with ⟨kb, hkb, rfl⟩
    exact batched_partitioned_consistent max_items EventPartitioner.partition items kb hkb x hx

/-- C2 witness: the isolation theorem applied to a concrete singleton
batch and its built request. -/
theorem hec_partition_isolation_witness :
    EventPartitioner.partition processedCounter = (none : Option String) ∧
    EventPartitioner.partition processedGauge = (none : Option String) :=
  ⟨hec_partition_isolation.1 5 [processedCounter] (none, [processedCounter])
     (by decide) processedCounter (by decide),
   hec_partition_isolation.2.1 5 [processedGauge]
     { passthrough_token := none, events := [processedGauge] }
     (by decide) processedGauge (by decide)⟩

theorem lookupAssoc_updateAssoc {κ β : Type} [DecidableEq κ] :
    ∀ (l : List (κ × β)) (k k' : κ) (v : β),
      lookupAssoc (updateAssoc l k v) k' = if k = k' then some v else lookupAssoc l k' := by
  intro l
  induction l with
  | nil =>
      intro k k' v
      by_cases h : k = k' <;> simp [updateAssoc, lookupAssoc, h]
  | cons p rest ih =>
      intro k k' v
      rcases p with ⟨k0, w⟩
      by_cases h0 : k0 = k
      · subst h0
        by_cases h1 : k0 = k' <;> simp [updateAssoc, lookupAssoc, h1]
      · by_cases h1 : k0 = k'
        · subst h1
          have h2 : ¬k = k0 := fun hh => h0 hh.symm
          simp [updateAssoc, lookupAssoc, h0, h2]
        · by_cases h2 : k = k' <;> simp [updateAssoc, lookupAssoc, h0, h1, h2, ih]

theorem getField_setField (l : LogEvent) (p q : String) (v : Value) :
    (l.setField p v).getField q = if p = q then some v else l.getField q :=
  lookupAssoc_updateAssoc l.fields p q v

theorem getField_insert_if_empty_same (p : String) (v : Value) (l : LogEvent) :
    (insert_if_empty p v l).getField p = some ((l.getField p).getD v) := by
  rcases h : l.getField p with _ | w <;>
    simp [insert_if_empty, h, getField_setField]

theorem getField_insert_if_empty_other (p q : String) (v : Value) (l : LogEvent)
    (hpq : p ≠ q) : (insert_if_empty p v l).getField q = l.getField q := by
  rcases h : l.getField p with _ | w <;>
    simp [insert_if_empty, h, getField_setField, hpq]

theorem insert_if_empty_preserves (p q : String) (v : Value) (l : LogEvent) (w : Value)
    (h : l.getField q = some w) : (insert_if_empty p v l).getField q = some w := by
  by_cases hpq : p = q
  · subst hpq
    rw [getField_insert_if_empty_same, h]
    rfl
  · rw [getField_insert_if_empty_other _ _ _ _ hpq, h]

theorem envelope_getField_timestamp (sn : String) (now : Nat) (l : LogEvent) :
    (insert_standard_vector_source_metadata sn now l).getField "timestamp"
      = some (Value.timestamp now) := by
  simp only [insert_standard_vector_source_metadata]
  rw [getField_setField, if_neg (by decide), getField_setField, if_pos rfl]

theorem envelope_getField_source_type (sn : String) (now : Nat) (l : LogEvent) :
    (insert_standard_vector_source_metadata sn now l).getField "source_type"
      = some (Value.str sn) := by
  simp only [insert_standard_vector_source_metadata]
  rw [getField_setField, if_pos rfl]

theorem envelope_getField_other (sn : String) (now : Nat) (l : LogEvent) (q : String)
    (h1 : q ≠ "timestamp") (h2 : q ≠ "source_type") :
    (insert_standard_vector_source_metadata sn now l).getField q = l.getField q := by
  simp only [insert_standard_vector_source_metadata]
  rw [getField_setField, if_neg (fun hh => h2 hh.symm),
    getField_setField, if_neg (fun hh => h1 hh.symm)]

theorem sent_batches_are_enriched (enrich : Event → Event) (send_ok : List Event → Bool)
    (truncated : Bool) :
    ∀ (rs : List DecodeResult) (b : List Event),
      b ∈ (runDatagram enrich send_ok truncated rs).sent →
      ∃ es, b = List.map enrich es := by
  intro rs
  induction rs with
  | nil => intro b hb; simp [runDatagram] at hb
  | cons r rest ih =>
      intro b hb
      cases r with
      | ok es sz =>
          simp only [runDatagram] at hb
          split at hb <;> split at hb
          · exact ih b hb
          · split at hb
            · rw [sent_consBatch] at hb
              rcases List.mem_cons.mp hb with hb1 | hb1
              · exact ⟨_, hb1⟩
              · exact ih b hb1
            · simp at hb
          · exact ih b hb
          · split at hb
            · rw [sent_consBatch] at hb
              rcases List.mem_cons.mp hb with hb1 | hb1
              · exact ⟨_, hb1⟩
              · exact ih b hb1
            · simp at hb
      | err e =>
          simp only [runDatagram] at hb
          split at hb
          · exact ih b hb
          · simp at hb

/-- C7 counterexample: a forwarded batch containing a Metric event passes
through enrichment with nothing inserted — the claim's "stamped, on each
event" fails for non-Log events: the forwarded metric carries no value at
the host path even though that path was empty. -/
theorem udp_stamp_counterexample :
    datagramOutput "host" sampleUdpConfig sampleAddr 0 false
        [DecodeResult.ok [Event.metric sampleCounter] 1]
      = [[Event.metric sampleCounter]] ∧
    eventHostStamped (hostKeyPath "host" sampleUdpConfig) (Event.metric sampleCounter)
      = false := by
  exact ⟨by decide, by decide⟩

/-- C7 (amended): every batch the UDP source forwards consists of events
passed through the enrichment step, and on each Log event that step
stamps the standard source envelope (ingestion timestamp and source name)
and inserts the peer IP at the configured host key path (default: the
global host key) and the peer port at the configured port key path
(default `"port"`) with insert-if-empty semantics — for host/port paths
distinct from the envelope fields, a value already present at the path is
never overwritten, and an empty path receives the peer address data.
Non-Log events are not stamped (see the counterexample and C9). -/
theorem udp_log_enrichment (shk : String) (c : UdpConfig) (addr : Address) (now : Nat) :
    (∀ (truncated : Bool) (rs : List DecodeResult) (batch : List Event) (ev : Event),
       batch ∈ datagramOutput shk c addr now truncated rs → ev ∈ batch →
       ∃ ev0, ev = enrichEvent shk c addr now ev0) ∧
    (∀ l : LogEvent,
       (enrichLog shk c addr now l).getField "timestamp" = some (Value.timestamp now) ∧
       (enrichLog shk c addr now l).getField "source_type"
         = some (Value.str socketConfigName) ∧
       (hostKeyPath shk c ≠ "timestamp" → hostKeyPath shk c ≠ "source_type" →
         (∀ w, l.getField (hostKeyPath shk c) = some w →
            (enrichLog shk c addr now l).getField (hostKeyPath shk c) = some w) ∧
         (l.getField (hostKeyPath shk c) = none →
            (enrichLog shk c addr now l).getField (hostKeyPath shk c)
              = some (Value.str addr.ip))) ∧
       (portKeyPath c ≠ "timestamp" → portKeyPath c ≠ "source_type" →
         (∀ w, l.getField (portKeyPath c) = some w →
            (enrichLog shk c addr now l).getField (portKeyPath c) = some w) ∧
         (portKeyPath c ≠ hostKeyPath shk c → l.getField (portKeyPath c) = none →
            (enrichLog shk c addr now l).getField (portKeyPath c)
              = some (Value.int (Int.ofNat addr.port))))) := by
  constructor
  · intro truncated rs batch ev hb hev
    rcases sent_batches_are_enriched (enrichEvent shk c addr now) (fun _ => true)
        truncated rs batch hb with ⟨es, rfl⟩
    rcases List.mem_map.mp hev with ⟨ev0, _, rfl⟩
    exact ⟨ev0, rfl⟩
  · intro l
    simp only [enrichLog]
    refine ⟨?_, ?_, ?_, ?_⟩
    · exact insert_if_empty_preserves _ _ _ _ _
        (insert_if_empty_preserves _ _ _ _ _ (envelope_getField_timestamp _ _ _))
    · exact insert_if_empty_preserves _ _ _ _ _
        (insert_if_empty_preserves _ _ _ _ _ (envelope_getField_source_type _ _ _))
    · intro hts hst
      constructor
      · intro w hw
        exact insert_if_empty_preserves _ _ _ _ _
          (insert_if_empty_preserves _ _ _ _ _
            ((envelope_getField_other _ _ _ _ hts hst).trans hw))
      · intro hw
        apply insert_if_empty_preserves
        rw [getField_insert_if_empty_same, envelope_getField_other _ _ _ _ hts hst, hw]
        rfl
    · intro hts hst
      constructor
      · intro w hw
        exact insert_if_empty_preserves _ _ _ _ _
          (insert_if_empty_preserves _ _ _ _ _
            ((envelope_getField_other _ _ _ _ hts hst).trans hw))
      · intro hph hw
        rw [getField_insert_if_empty_same,
          getField_insert_if_empty_other _ _ _ _ (fun hh => hph hh.symm),
          envelope_getField_other _ _ _ _ hts hst, hw]
        rfl

/-- C7 witness: a concrete forwarded log event is an enrichment image;
an empty host path receives the peer IP; a pre-existing port value is
not overwritten. -/
theorem udp_log_enrichment_witness :
    (∃ ev0, Event.log (enrichLog "host" sampleUdpConfig sampleAddr 0 { fields := [] })
       = enrichEvent "host" sampleUdpConfig sampleAddr 0 ev0) ∧
    (enrichLog "host" sampleUdpConfig sampleAddr 0 { fields := [] }).getField
        (hostKeyPath "host" sampleUdpConfig) = some (Value.str sampleAddr.ip) ∧
    (enrichLog "host" sampleUdpConfig sampleAddr 0
        { fields := [("port", Value.int 1)] }).getField (portKeyPath sampleUdpConfig)
      = some (Value.int 1) :=
  ⟨(udp_log_enrichment "host" sampleUdpConfig sampleAddr 0).1 false
      [DecodeResult.ok [emptyLog] 1]
      [Event.log (enrichLog "host" sampleUdpConfig sampleAddr 0 { fields := [] })]
      (Event.log (enrichLog "host" sampleUdpConfig sampleAddr 0 { fields := [] }))
      (by decide) (by decide),
   (((udp_log_enrichment "host" sampleUdpConfig sampleAddr 0).2
       { fields := [] }).2.2.1 (by decide) (by decide)).2 (by decide),
   (((udp_log_enrichment "host" sampleUdpConfig sampleAddr 0).2
       { fields := [("port", Value.int 1)] }).2.2.2 (by decide) (by decide)).1
     (Value.int 1) (by decide)⟩
